import Mathlib

/-!
Verification of the color-string codec of PaletteKnife (`src/code.ts`).

The embedded functions are `stringToRGBA` (the parser, spec name `parse`)
and the formatting half of `hexToRgba` (the serializer, spec name
`serialize`).  Strings are lists of characters; JavaScript numbers that can
only arise here as exact rationals or NaN are modelled by `JSNum`.

The two regular expressions of the source,
  `/^rgb\s*\(\s*(\d+)\s*,\s*(\d+)\s*,\s*(\d+)\s*\)$/i`  and
  `/^rgba\s*\(\s*(\d+)\s*,\s*(\d+)\s*,\s*(\d+)\s*,\s*(\d+(?:\.\d+)?)\)/i`,
are embedded as deterministic matchers: every repetition in these patterns
(`\s*`, `\d+`, the optional fraction) is followed by a character it can
never match, so the backtracking regex engine and the greedy one-pass
matcher accept exactly the same strings with the same capture groups.
Note the rgba pattern has no `\s*` before `\)` and no `$` anchor; the
matchers reproduce this.
-/

/- Batteries marks the rational operations `@[irreducible]`; restore the
default reducibility so that concrete color values can be evaluated by
`decide` (kernel reduction; no axioms involved). -/
set_option allowUnsafeReducibility true in
attribute [semireducible] Rat.mul Rat.inv Rat.add Rat.sub Rat.neg Rat.ofScientific

namespace PaletteKnife

/-- `\d` of JavaScript regexes: exactly the ASCII digits. -/
def isDigitC (c : Char) : Bool := 48 ≤ c.toNat && c.toNat ≤ 57

/-- Hexadecimal digit, as accepted by `parseInt(-, 16)`. -/
def isHexC (c : Char) : Bool :=
  isDigitC c || (97 ≤ c.toNat && c.toNat ≤ 102) || (65 ≤ c.toNat && c.toNat ≤ 70)

/-- `\s` of JavaScript regexes (also the `parseInt`/`parseFloat` trim set):
space, tab, LF, VT, FF, CR, NBSP, Ogham space mark, the en-quad..hair-space
block, LS, PS, narrow NBSP, medium mathematical space, ideographic space,
and the BOM. -/
def jsIsSpace (c : Char) : Bool :=
  c.toNat = 32 || c.toNat = 9 || c.toNat = 10 || c.toNat = 11 || c.toNat = 12 ||
  c.toNat = 13 || c.toNat = 160 || c.toNat = 5760 ||
  (8192 ≤ c.toNat && c.toNat ≤ 8202) || c.toNat = 8232 || c.toNat = 8233 ||
  c.toNat = 8239 || c.toNat = 8287 || c.toNat = 12288 || c.toNat = 65279

/-- Numeric value of an ASCII decimal digit. -/
def digitVal (c : Char) : ℕ := c.toNat - 48

/-- Numeric value of a hexadecimal digit (0 on other characters; only
applied under an `isHexC` guard). -/
def hexVal (c : Char) : ℕ :=
  if 48 ≤ c.toNat ∧ c.toNat ≤ 57 then c.toNat - 48
  else if 97 ≤ c.toNat ∧ c.toNat ≤ 102 then c.toNat - 87
  else if 65 ≤ c.toNat ∧ c.toNat ≤ 70 then c.toNat - 55
  else 0

/-- Value of a string of decimal digits. -/
def digitsToNat (l : List Char) : ℕ := l.foldl (fun a c => 10 * a + digitVal c) 0

/-- Value of a string of hexadecimal digits. -/
def hexToNat (l : List Char) : ℕ := l.foldl (fun a c => 16 * a + hexVal c) 0

/-- A JavaScript number as it can arise in the codec: NaN or an exact
rational.  (All arithmetic performed by the codec — division by the
constants 15 and 255, multiplication by 255 — is exact on the rationals
involved, so the rational model is the double model.) -/
inductive JSNum where
  | nan : JSNum
  | val : ℚ → JSNum
deriving DecidableEq, Repr

/-- Division by a (nonzero) constant; NaN propagates. -/
def jsDiv : JSNum → ℚ → JSNum
  | .nan, _ => .nan
  | .val q, d => .val (q / d)

/-- Multiplication by a constant; NaN propagates. -/
def jsMul : JSNum → ℚ → JSNum
  | .nan, _ => .nan
  | .val q, k => .val (q * k)

/-- Negation; NaN propagates. -/
def jsNeg : JSNum → JSNum
  | .nan => .nan
  | .val q => .val (-q)

/-- `Math.round`: floor of `x + 1/2`; NaN gives NaN (modelled as `none`). -/
def jsRound : JSNum → Option ℤ
  | .nan => none
  | .val q => some ⌊q + 1/2⌋

/-- Digit-collection phase of `parseInt(s, 16)`: strip a literal `0x`/`0X`
prefix, then take the longest prefix of hexadecimal digits; NaN if that
prefix is empty. -/
def hexBody (l : List Char) : JSNum :=
  let l2 := match l with
    | a :: x :: r => if a = '0' ∧ (x = 'x' ∨ x = 'X') then r else a :: x :: r
    | _ => l
  let ds := l2.takeWhile isHexC
  if ds.isEmpty then .nan else .val (hexToNat ds)

/-- `parseInt(s, 16)`: trim leading whitespace, read an optional sign, then
the longest hexadecimal-digit prefix (with optional `0x`); NaN when no
digit is found. -/
def jsParseIntHex (l : List Char) : JSNum :=
  match l.dropWhile jsIsSpace with
  | c :: r =>
    if c = '-' then jsNeg (hexBody r)
    else if c = '+' then hexBody r
    else hexBody (c :: r)
  | [] => hexBody []

/-- `parseFloat`, on the language of the rgba regex's fourth capture group
(`\d+(\.\d+)?`, after optional whitespace): integer part, then an optional
fractional part.  The source only ever applies `parseFloat` to such a
capture, so signs, exponents and `Infinity` cannot occur. -/
def jsParseFloat (l : List Char) : JSNum :=
  let l1 := l.dropWhile jsIsSpace
  let ds := l1.takeWhile isDigitC
  if ds.isEmpty then .nan
  else
    match l1.dropWhile isDigitC with
    | c :: r2 =>
      if c = '.' then
        .val ((digitsToNat ds : ℚ) +
          (digitsToNat (r2.takeWhile isDigitC) : ℚ) / 10 ^ (r2.takeWhile isDigitC).length)
      else .val ((digitsToNat ds : ℚ))
    | [] => .val ((digitsToNat ds : ℚ))

/-- `\s*(\d+)`: skip whitespace, demand a nonempty digit run, return the
captured digits and the rest. -/
def lexNum (l : List Char) : Option (List Char × List Char) :=
  let l1 := l.dropWhile jsIsSpace
  let ds := l1.takeWhile isDigitC
  if ds.isEmpty then none else some (ds, l1.dropWhile isDigitC)

/-- `\s*c`: skip whitespace, demand the literal character `c`. -/
def expectChar (c : Char) (l : List Char) : Option (List Char) :=
  match l.dropWhile jsIsSpace with
  | c2 :: rest => if c2 = c then some rest else none
  | [] => none

/-- `\s*(\d+(?:\.\d+)?)`: skip whitespace, capture digits with an optional
fraction.  When a `.` is not followed by a digit the optional group fails
and the capture is the integer digits alone, the `.` left unconsumed —
exactly the regex's backtracking behavior. -/
def lexAlpha (l : List Char) : Option (List Char × List Char) :=
  let l1 := l.dropWhile jsIsSpace
  let ds := l1.takeWhile isDigitC
  if ds.isEmpty then none
  else
    match l1.dropWhile isDigitC with
    | c :: r2 =>
      if c = '.' then
        if (r2.takeWhile isDigitC).isEmpty then some (ds, c :: r2)
        else some (ds ++ c :: r2.takeWhile isDigitC, r2.dropWhile isDigitC)
      else some (ds, c :: r2)
    | [] => some (ds, [])

/-- The part both regexes share after their name prefix:
`\s*\(\s*(\d+)\s*,\s*(\d+)\s*,\s*(\d+)`.  Returns the three captures and
the unconsumed rest. -/
def afterRgb (l : List Char) : Option (List Char × List Char × List Char × List Char) :=
  (expectChar '(' l).bind fun l1 =>
  (lexNum l1).bind fun p1 =>
  (expectChar ',' p1.2).bind fun l3 =>
  (lexNum l3).bind fun p2 =>
  (expectChar ',' p2.2).bind fun l5 =>
  (lexNum l5).bind fun p3 =>
  some (p1.1, p2.1, p3.1, p3.2)

/-- `_rgbRegEx`: case-insensitive `rgb`, the shared body, then `\s*\)$` —
the closing parenthesis must end the string. -/
def matchRgb (s : List Char) : Option (List Char × List Char × List Char) :=
  match s with
  | c1 :: c2 :: c3 :: rest =>
    if (c1 = 'r' ∨ c1 = 'R') ∧ (c2 = 'g' ∨ c2 = 'G') ∧ (c3 = 'b' ∨ c3 = 'B') then
      (afterRgb rest).bind fun t =>
        match expectChar ')' t.2.2.2 with
        | some r => if r.isEmpty then some (t.1, t.2.1, t.2.2.1) else none
        | none => none
    else none
  | _ => none

/-- `_rgbaRegEx`: case-insensitive `rgba`, the shared body, a fourth
capture `\s*,\s*(\d+(?:\.\d+)?)`, then `\)` — immediately after the
capture (no whitespace allowed) and with no end anchor (anything may
follow). -/
def matchRgba (s : List Char) : Option (List Char × List Char × List Char × List Char) :=
  match s with
  | c1 :: c2 :: c3 :: c4 :: rest =>
    if (c1 = 'r' ∨ c1 = 'R') ∧ (c2 = 'g' ∨ c2 = 'G') ∧ (c3 = 'b' ∨ c3 = 'B') ∧
        (c4 = 'a' ∨ c4 = 'A') then
      (afterRgb rest).bind fun t =>
      (expectChar ',' t.2.2.2).bind fun l7 =>
      (lexAlpha l7).bind fun p4 =>
      match p4.2 with
      | c :: _ => if c = ')' then some (t.1, t.2.1, t.2.2.1, p4.1) else none
      | [] => none
    else none
  | _ => none

/-- The return type of `stringToRGBA`: an `RGB | RGBA` object.  `a = none`
models an object without the `a` field. -/
structure RGBA where
  r : JSNum
  g : JSNum
  b : JSNum
  a : Option JSNum
deriving DecidableEq, Repr

/-- The fallback `{r: 0, g: 0, b: 0, a: 0}` of the final `return`. -/
def fallbackRGBA : RGBA := ⟨.val 0, .val 0, .val 0, some (.val 0)⟩

/-- The `else` branch of the length dispatch: try `_rgbRegEx`, then
`_rgbaRegEx`, else the fallback.  The captures are `\d+`, on which
`parseInt(-, 10)` is exactly `digitsToNat`. -/
def functionalPart (s : List Char) : RGBA :=
  match matchRgb s with
  | some t =>
    ⟨.val ((digitsToNat t.1 : ℚ) / 255), .val ((digitsToNat t.2.1 : ℚ) / 255),
     .val ((digitsToNat t.2.2 : ℚ) / 255), none⟩
  | none =>
    match matchRgba s with
    | some t =>
      ⟨.val ((digitsToNat t.1 : ℚ) / 255), .val ((digitsToNat t.2.1 : ℚ) / 255),
       .val ((digitsToNat t.2.2.1 : ℚ) / 255), some (jsParseFloat t.2.2.2)⟩
    | none => fallbackRGBA

/-- `stringToRGBA` of `src/code.ts`: dispatch on the string length, handle
the three `#`-prefixed hex shapes, otherwise run the two regexes; strings
of length 4/7/9 without a leading `#` reach the final fallback `return`
directly. -/
def stringToRGBA (s : List Char) : RGBA :=
  if s.length = 4 then
    if s.head? = some '#' then
      ⟨jsDiv (jsParseIntHex ((s.drop 1).take 1)) 15,
       jsDiv (jsParseIntHex ((s.drop 2).take 1)) 15,
       jsDiv (jsParseIntHex ((s.drop 3).take 1)) 15, none⟩
    else fallbackRGBA
  else if s.length = 7 then
    if s.head? = some '#' then
      ⟨jsDiv (jsParseIntHex ((s.drop 1).take 2)) 255,
       jsDiv (jsParseIntHex ((s.drop 3).take 2)) 255,
       jsDiv (jsParseIntHex ((s.drop 5).take 2)) 255, none⟩
    else fallbackRGBA
  else if s.length = 9 then
    if s.head? = some '#' then
      ⟨jsDiv (jsParseIntHex ((s.drop 1).take 2)) 255,
       jsDiv (jsParseIntHex ((s.drop 3).take 2)) 255,
       jsDiv (jsParseIntHex ((s.drop 5).take 2)) 255,
       some (jsDiv (jsParseIntHex ((s.drop 7).take 2)) 255)⟩
    else fallbackRGBA
  else functionalPart s

/-- Decimal digits, most significant first, prepended to `acc`.  The fuel
argument (any value above `n`) keeps the recursion structural so that the
kernel can evaluate it. -/
def natToDigitsAux : ℕ → ℕ → List Char → List Char
  | 0, _, acc => acc
  | fuel + 1, n, acc =>
    if n < 10 then Char.ofNat (48 + n) :: acc
    else natToDigitsAux fuel (n / 10) (Char.ofNat (48 + n % 10) :: acc)

/-- Decimal digits of a natural number, most significant first. -/
def natToDigits (n : ℕ) : List Char := natToDigitsAux (n + 1) n []

/-- JavaScript number-to-string on the integers produced by `Math.round`. -/
def intToDigits (n : ℤ) : List Char :=
  if n < 0 then '-' :: natToDigits n.natAbs else natToDigits n.toNat

/-- String conversion of a `Math.round` result (NaN prints as `NaN`). -/
def roundStr (x : JSNum) : List Char :=
  match jsRound x with
  | none => ['N', 'a', 'N']
  | some n => intToDigits n

/-- Exactly three decimal digits of `f < 1000`, zero-padded. -/
def pad3 (f : ℕ) : List Char :=
  [Char.ofNat (48 + f / 100 % 10), Char.ofNat (48 + f / 10 % 10), Char.ofNat (48 + f % 10)]

/-- `toFixed(3)` on a nonnegative rational: the nearest integer `m` to
`q * 1000` (ties away from zero), printed as `m / 1000` with exactly three
digits after the point. -/
def fixedAbs (q : ℚ) : List Char :=
  let m := (⌊q * 1000 + 1/2⌋).toNat
  natToDigits (m / 1000) ++ '.' :: pad3 (m % 1000)

/-- `Number.prototype.toFixed(3)`; NaN prints as `NaN`. -/
def toFixed3 : JSNum → List Char
  | .nan => ['N', 'a', 'N']
  | .val q => if q < 0 then '-' :: fixedAbs (-q) else fixedAbs q

/-- The formatting half of `hexToRgba`: `rgba(R, G, B, A)` when the `a`
field is present (`rgba.a != undefined`), else `rgb(R, G, B)`, with
`R,G,B = Math.round(channel * 255)` and `A = a.toFixed(3)`. -/
def serializeRGBA (c : RGBA) : List Char :=
  match c.a with
  | some a =>
    "rgba(".data ++ roundStr (jsMul c.r 255) ++ ", ".data ++
    roundStr (jsMul c.g 255) ++ ", ".data ++ roundStr (jsMul c.b 255) ++
    ", ".data ++ toFixed3 a ++ ")".data
  | none =>
    "rgb(".data ++ roundStr (jsMul c.r 255) ++ ", ".data ++
    roundStr (jsMul c.g 255) ++ ", ".data ++ roundStr (jsMul c.b 255) ++ ")".data

/-- `hexToRgba` of `src/code.ts`. -/
def hexToRgba (s : List Char) : List Char := serializeRGBA (stringToRGBA s)

/-- The spec's `parse` operation, on Lean strings. -/
def parse (s : String) : RGBA := stringToRGBA s.data

/-- The spec's `serialize` operation, on Lean strings. -/
def serialize (c : RGBA) : String := ⟨serializeRGBA c⟩

/-- A channel that is an ordinary number in the unit interval. -/
def inUnit (x : JSNum) : Prop := ∃ q : ℚ, x = .val q ∧ 0 ≤ q ∧ q ≤ 1

/-- All channels (and the alpha, when present) lie in `[0, 1]`. -/
def RGBA.inRange (c : RGBA) : Prop :=
  inUnit c.r ∧ inUnit c.g ∧ inUnit c.b ∧ ∀ x, c.a = some x → inUnit x

/-- Two channels that are ordinary numbers within `1/255` of each other. -/
def chanClose (x y : JSNum) : Prop :=
  ∃ p q : ℚ, x = .val p ∧ y = .val q ∧ |p - q| ≤ 1/255

/-- Alpha fields agree on presence, and on value within `1/255`. -/
def alphaClose : Option JSNum → Option JSNum → Prop
  | none, none => True
  | some x, some y => chanClose x y
  | _, _ => False

/-- Colors equal channel-by-channel within the `1/255` rounding tolerance. -/
def RGBA.close (c d : RGBA) : Prop :=
  chanClose c.r d.r ∧ chanClose c.g d.g ∧ chanClose c.b d.b ∧ alphaClose c.a d.a

/-- The language of the fourth rgba capture group `\d+(?:\.\d+)?`: a
nonempty digit run, optionally followed by `.` and a nonempty digit run. -/
def alphaShape (A : List Char) : Prop :=
  (A ≠ [] ∧ ∀ c ∈ A, isDigitC c = true) ∨
  ∃ di df, A = di ++ '.' :: df ∧ di ≠ [] ∧ df ≠ [] ∧
    (∀ c ∈ di, isDigitC c = true) ∧ (∀ c ∈ df, isDigitC c = true)

example : parse "#00F" = ⟨.val 0, .val 0, .val 1, none⟩ := by decide
example : parse "#FF0000" = ⟨.val 1, .val 0, .val 0, none⟩ := by decide
example : parse "rgb(0,255,0)" = ⟨.val 0, .val 1, .val 0, none⟩ := by decide
example : parse "rgba(255,255,255,0.5)" = ⟨.val 1, .val 1, .val 1, some (.val (1/2))⟩ := by
  decide
example : parse "not-a-color" = fallbackRGBA := by decide
example : parse "rgb( 10 , 20 , 30 )" = parse "rgb(10,20,30)" := by decide
example : parse "RGBA(1,2,3,0.1)" = parse "rgba(1,2,3,0.1)" := by decide
example : parse "rgba(1, 2, 3, 0.5 )" = fallbackRGBA := by decide
example : parse "rgba(1,2,3,0.5)garbage" = parse "rgba(1,2,3,0.5)" := by decide
example : serialize ⟨.val 0, .val 0, .val 0, none⟩ = "rgb(0, 0, 0)" := by decide
example : serialize ⟨.val 1, .val 1, .val 1, some (.val (1/2))⟩ =
    "rgba(255, 255, 255, 0.500)" := by decide
example : parse "#0000007f" =
    ⟨.val 0, .val 0, .val 0, some (.val (127/255))⟩ := by decide

/-! ### Character-class facts -/

theorem isDigitC_iff {c : Char} : isDigitC c = true ↔ 48 ≤ c.toNat ∧ c.toNat ≤ 57 := by
  simp [isDigitC]

theorem isHexC_iff {c : Char} :
    isHexC c = true ↔
      (48 ≤ c.toNat ∧ c.toNat ≤ 57) ∨ (97 ≤ c.toNat ∧ c.toNat ≤ 102) ∨
      (65 ≤ c.toNat ∧ c.toNat ≤ 70) := by
  simp [isHexC, isDigitC, or_assoc]

theorem jsIsSpace_iff {c : Char} :
    jsIsSpace c = true ↔
      c.toNat = 32 ∨ c.toNat = 9 ∨ c.toNat = 10 ∨ c.toNat = 11 ∨ c.toNat = 12 ∨
      c.toNat = 13 ∨ c.toNat = 160 ∨ c.toNat = 5760 ∨
      (8192 ≤ c.toNat ∧ c.toNat ≤ 8202) ∨ c.toNat = 8232 ∨ c.toNat = 8233 ∨
      c.toNat = 8239 ∨ c.toNat = 8287 ∨ c.toNat = 12288 ∨ c.toNat = 65279 := by
  simp [jsIsSpace, or_assoc]

theorem not_space_of_digit {c : Char} (h : isDigitC c = true) : jsIsSpace c = false := by
  rw [isDigitC_iff] at h
  rw [Bool.eq_false_iff, Ne, jsIsSpace_iff]
  omega

theorem not_space_of_hex {c : Char} (h : isHexC c = true) : jsIsSpace c = false := by
  rw [isHexC_iff] at h
  rw [Bool.eq_false_iff, Ne, jsIsSpace_iff]
  omega

theorem toNat_ne_of_digit {c : Char} (h : isDigitC c = true) {n : ℕ}
    (hn : n < 48 ∨ 57 < n) : c.toNat ≠ n := by
  rw [isDigitC_iff] at h; omega

theorem ne_char_of_digit {c : Char} (h : isDigitC c = true) {d : Char}
    (hd : d.toNat < 48 ∨ 57 < d.toNat) : c ≠ d := by
  intro he; subst he
  exact absurd rfl (toNat_ne_of_digit h hd)

theorem not_digit_of_hex_letter {c : Char} (h : isHexC c = true)
    (h2 : isDigitC c = false) : (97 ≤ c.toNat ∧ c.toNat ≤ 102) ∨
      (65 ≤ c.toNat ∧ c.toNat ≤ 70) := by
  rw [isHexC_iff] at h
  rw [Bool.eq_false_iff, Ne, isDigitC_iff] at h2
  omega

/-! ### `takeWhile`/`dropWhile` on runs -/

theorem dropWhile_spaces {w : List Char} (l : List Char)
    (hw : ∀ c ∈ w, jsIsSpace c = true) :
    (w ++ l).dropWhile jsIsSpace = l.dropWhile jsIsSpace := by
  induction w with
  | nil => rfl
  | cons c t ih =>
    have hc : jsIsSpace c = true := hw c (by simp)
    simp only [List.cons_append, List.dropWhile_cons, hc, if_true]
    exact ih fun x hx => hw x (by simp [hx])

theorem dropWhile_nospace {c : Char} (l : List Char) (hc : jsIsSpace c = false) :
    (c :: l).dropWhile jsIsSpace = c :: l := by
  simp [List.dropWhile_cons, hc]

theorem takeWhile_digit_run (d rest : List Char)
    (hd : ∀ c ∈ d, isDigitC c = true)
    (hrest : ∀ c, rest.head? = some c → isDigitC c = false) :
    (d ++ rest).takeWhile isDigitC = d ∧ (d ++ rest).dropWhile isDigitC = rest := by
  induction d with
  | nil =>
    cases rest with
    | nil => exact ⟨rfl, rfl⟩
    | cons c t =>
      have := hrest c rfl
      simp [List.takeWhile_cons, List.dropWhile_cons, this]
  | cons c t ih =>
    have hc := hd c (by simp)
    have h2 := ih (fun x hx => hd x (by simp [hx]))
    simp [List.takeWhile_cons, List.dropWhile_cons, hc, h2.1, h2.2]

/-! ### Lexer specifications -/

theorem lexNum_spec {w d rest : List Char}
    (hw : ∀ c ∈ w, jsIsSpace c = true)
    (hne : d ≠ []) (hd : ∀ c ∈ d, isDigitC c = true)
    (hrest : ∀ c, rest.head? = some c → isDigitC c = false) :
    lexNum (w ++ d ++ rest) = some (d, rest) := by
  have hdrop : (w ++ (d ++ rest)).dropWhile jsIsSpace = d ++ rest := by
    rw [dropWhile_spaces _ hw]
    cases d with
    | nil => exact absurd rfl hne
    | cons c t => exact dropWhile_nospace _ (not_space_of_digit (hd c (by simp)))
  have htake := takeWhile_digit_run d rest hd hrest
  rw [lexNum, List.append_assoc, hdrop]
  simp [htake.1, htake.2, hne]

theorem expectChar_spec {w : List Char} {c : Char} (l : List Char)
    (hw : ∀ x ∈ w, jsIsSpace x = true) (hc : jsIsSpace c = false) :
    expectChar c (w ++ c :: l) = some l := by
  rw [expectChar, dropWhile_spaces _ hw, dropWhile_nospace _ hc]
  simp

theorem not_digit_of_space {c : Char} (h : jsIsSpace c = true) : isDigitC c = false := by
  rw [jsIsSpace_iff] at h
  rw [Bool.eq_false_iff, Ne, isDigitC_iff]
  omega

/-- The head of `w ++ c₀ :: X` (with `w` whitespace, `c₀` a non-digit
delimiter) is never a digit. -/
theorem head_not_digit {w : List Char} {c₀ : Char} (X : List Char)
    (hw : ∀ c ∈ w, jsIsSpace c = true) (hc₀ : isDigitC c₀ = false) :
    ∀ c, (w ++ c₀ :: X).head? = some c → isDigitC c = false := by
  cases w with
  | nil => intro c hc; simp at hc; subst hc; exact hc₀
  | cons a t =>
    intro c hc
    simp at hc; subst hc
    exact not_digit_of_space (hw a (by simp))

theorem lexAlpha_spec {w A rest : List Char}
    (hw : ∀ c ∈ w, jsIsSpace c = true) (hA : alphaShape A)
    (hrest : ∀ c, rest.head? = some c → isDigitC c = false ∧ c ≠ '.') :
    lexAlpha (w ++ A ++ rest) = some (A, rest) := by
  rcases hA with ⟨hne, hd⟩ | ⟨di, df, rfl, hdine, hdfne, hdi, hdf⟩
  · have hdrop : (w ++ (A ++ rest)).dropWhile jsIsSpace = A ++ rest := by
      rw [dropWhile_spaces _ hw]
      cases A with
      | nil => exact absurd rfl hne
      | cons c t => exact dropWhile_nospace _ (not_space_of_digit (hd c (by simp)))
    have htake := takeWhile_digit_run A rest hd (fun c hc => (hrest c hc).1)
    rw [lexAlpha, List.append_assoc, hdrop]
    simp only [htake.1, htake.2, hne, List.isEmpty_iff, if_neg hne]
    cases rest with
    | nil => rfl
    | cons c t =>
      have := hrest c rfl
      simp [this.2]
  · have hdrop : (w ++ ((di ++ '.' :: df) ++ rest)).dropWhile jsIsSpace =
        di ++ '.' :: (df ++ rest) := by
      rw [dropWhile_spaces _ hw, List.append_assoc, List.cons_append]
      cases di with
      | nil => exact absurd rfl hdine
      | cons c t => exact dropWhile_nospace _ (not_space_of_digit (hdi c (by simp)))
    have htake := takeWhile_digit_run di ('.' :: (df ++ rest)) hdi
      (fun c hc => by simp at hc; subst hc; decide)
    have htakedf := takeWhile_digit_run df rest hdf (fun c hc => (hrest c hc).1)
    rw [lexAlpha, List.append_assoc, hdrop]
    simp only [htake.1, htake.2, htakedf.1, htakedf.2, hdine, hdfne,
      List.isEmpty_iff, if_neg hdine, if_neg hdfne]
    simp

theorem afterRgb_spec {w1 w2 w3 w4 w5 w6 d1 d2 d3 rest : List Char}
    (hw1 : ∀ c ∈ w1, jsIsSpace c = true) (hw2 : ∀ c ∈ w2, jsIsSpace c = true)
    (hw3 : ∀ c ∈ w3, jsIsSpace c = true) (hw4 : ∀ c ∈ w4, jsIsSpace c = true)
    (hw5 : ∀ c ∈ w5, jsIsSpace c = true) (hw6 : ∀ c ∈ w6, jsIsSpace c = true)
    (h1 : d1 ≠ []) (hd1 : ∀ c ∈ d1, isDigitC c = true)
    (h2 : d2 ≠ []) (hd2 : ∀ c ∈ d2, isDigitC c = true)
    (h3 : d3 ≠ []) (hd3 : ∀ c ∈ d3, isDigitC c = true)
    (hrest : ∀ c, rest.head? = some c → isDigitC c = false) :
    afterRgb (w1 ++ '(' :: (w2 ++ d1 ++ (w3 ++ ',' :: (w4 ++ d2 ++
      (w5 ++ ',' :: (w6 ++ d3 ++ rest)))))) = some (d1, d2, d3, rest) := by
  rw [afterRgb, expectChar_spec _ hw1 (by decide), Option.some_bind,
    lexNum_spec hw2 h1 hd1 (head_not_digit _ hw3 (by decide)), Option.some_bind,
    expectChar_spec _ hw3 (by decide), Option.some_bind,
    lexNum_spec hw4 h2 hd2 (head_not_digit _ hw5 (by decide)), Option.some_bind,
    expectChar_spec _ hw5 (by decide), Option.some_bind,
    lexNum_spec hw6 h3 hd3 hrest, Option.some_bind]

theorem matchRgb_spec (w1 w2 w3 w4 w5 w6 w7 d1 d2 d3 : List Char)
    (hw1 : ∀ c ∈ w1, jsIsSpace c = true) (hw2 : ∀ c ∈ w2, jsIsSpace c = true)
    (hw3 : ∀ c ∈ w3, jsIsSpace c = true) (hw4 : ∀ c ∈ w4, jsIsSpace c = true)
    (hw5 : ∀ c ∈ w5, jsIsSpace c = true) (hw6 : ∀ c ∈ w6, jsIsSpace c = true)
    (hw7 : ∀ c ∈ w7, jsIsSpace c = true)
    (h1 : d1 ≠ []) (hd1 : ∀ c ∈ d1, isDigitC c = true)
    (h2 : d2 ≠ []) (hd2 : ∀ c ∈ d2, isDigitC c = true)
    (h3 : d3 ≠ []) (hd3 : ∀ c ∈ d3, isDigitC c = true) :
    matchRgb ('r' :: 'g' :: 'b' :: (w1 ++ '(' :: (w2 ++ d1 ++ (w3 ++ ',' ::
      (w4 ++ d2 ++ (w5 ++ ',' :: (w6 ++ d3 ++ (w7 ++ [')'])))))))) =
      some (d1, d2, d3) := by
  rw [matchRgb, if_pos (by simp),
    afterRgb_spec hw1 hw2 hw3 hw4 hw5 hw6 h1 hd1 h2 hd2 h3 hd3
      (head_not_digit _ hw7 (by decide)), Option.some_bind,
    expectChar_spec ([] : List Char) hw7 (by decide)]
  simp

theorem matchRgba_spec (w1 w2 w3 w4 w5 w6 w7 w8 d1 d2 d3 A tail : List Char)
    (hw1 : ∀ c ∈ w1, jsIsSpace c = true) (hw2 : ∀ c ∈ w2, jsIsSpace c = true)
    (hw3 : ∀ c ∈ w3, jsIsSpace c = true) (hw4 : ∀ c ∈ w4, jsIsSpace c = true)
    (hw5 : ∀ c ∈ w5, jsIsSpace c = true) (hw6 : ∀ c ∈ w6, jsIsSpace c = true)
    (hw7 : ∀ c ∈ w7, jsIsSpace c = true) (hw8 : ∀ c ∈ w8, jsIsSpace c = true)
    (h1 : d1 ≠ []) (hd1 : ∀ c ∈ d1, isDigitC c = true)
    (h2 : d2 ≠ []) (hd2 : ∀ c ∈ d2, isDigitC c = true)
    (h3 : d3 ≠ []) (hd3 : ∀ c ∈ d3, isDigitC c = true)
    (hA : alphaShape A) :
    matchRgba ('r' :: 'g' :: 'b' :: 'a' :: (w1 ++ '(' :: (w2 ++ d1 ++ (w3 ++ ',' ::
      (w4 ++ d2 ++ (w5 ++ ',' :: (w6 ++ d3 ++ (w7 ++ ',' ::
        (w8 ++ A ++ ')' :: tail))))))))) = some (d1, d2, d3, A) := by
  rw [matchRgba, if_pos (by simp),
    afterRgb_spec hw1 hw2 hw3 hw4 hw5 hw6 h1 hd1 h2 hd2 h3 hd3
      (head_not_digit _ hw7 (by decide)), Option.some_bind,
    expectChar_spec _ hw7 (by decide), Option.some_bind,
    lexAlpha_spec hw8 hA (fun c hc => by simp at hc; subst hc; exact ⟨by decide, by decide⟩),
    Option.some_bind]
  simp

/-! ### Lexer inversions: what a successful match tells us -/

theorem lexNum_inv {l : List Char} {p : List Char × List Char}
    (h : lexNum l = some p) :
    p.1 ≠ [] ∧ (∀ c ∈ p.1, isDigitC c = true) ∧
      p.2 <:+ l ∧ p.2.length + 1 ≤ l.length := by
  rw [lexNum] at h
  split at h
  · exact absurd h (by simp)
  · rename_i hne
    injection h with h
    subst h
    refine ⟨by simpa [List.isEmpty_iff] using hne,
      fun c hc => List.mem_takeWhile_imp hc, ?_, ?_⟩
    · exact (List.dropWhile_suffix isDigitC).trans (List.dropWhile_suffix jsIsSpace)
    · have hsplit := List.takeWhile_append_dropWhile isDigitC (l.dropWhile jsIsSpace)
      have hlen : (l.dropWhile jsIsSpace).length ≤ l.length :=
        (List.dropWhile_suffix jsIsSpace).length_le
      have := congrArg List.length hsplit
      simp only [List.length_append] at this
      have hne' : (List.takeWhile isDigitC (l.dropWhile jsIsSpace)).length ≠ 0 := by
        simpa [List.isEmpty_iff, List.length_eq_zero] using hne
      simp only
      omega

theorem expectChar_inv {c : Char} {l r : List Char} (h : expectChar c l = some r) :
    c :: r <:+ l ∧ r.length + 1 ≤ l.length := by
  rw [expectChar] at h
  split at h
  · rename_i c2 rest heq
    split at h
    · rename_i hc
      injection h with h
      have hsuf : c :: r <:+ l := by
        rw [← h, ← hc]
        exact heq ▸ List.dropWhile_suffix jsIsSpace
      exact ⟨hsuf, by simpa using hsuf.length_le⟩
    · exact absurd h (by simp)
  · exact absurd h (by simp)

theorem lexAlpha_inv {l : List Char} {p : List Char × List Char}
    (h : lexAlpha l = some p) :
    (∃ q : ℚ, 0 ≤ q ∧ jsParseFloat p.1 = .val q) ∧
      p.2 <:+ l ∧ p.2.length + 1 ≤ l.length := by
  rw [lexAlpha] at h
  split at h
  · exact absurd h (by simp)
  · rename_i hne
    have hne' : List.takeWhile isDigitC (l.dropWhile jsIsSpace) ≠ [] := by
      simpa [List.isEmpty_iff] using hne
    have hds : ∀ c ∈ List.takeWhile isDigitC (l.dropWhile jsIsSpace), isDigitC c = true :=
      fun c hc => List.mem_takeWhile_imp hc
    have hsplit := List.takeWhile_append_dropWhile isDigitC (l.dropWhile jsIsSpace)
    have hlen : (l.dropWhile jsIsSpace).length ≤ l.length :=
      (List.dropWhile_suffix jsIsSpace).length_le
    have hlensplit := congrArg List.length hsplit
    simp only [List.length_append] at hlensplit
    have hnz : (List.takeWhile isDigitC (l.dropWhile jsIsSpace)).length ≠ 0 := by
      simpa [List.length_eq_zero] using hne'
    have hsufl1 : (l.dropWhile jsIsSpace).dropWhile isDigitC <:+ l :=
      (List.dropWhile_suffix isDigitC).trans (List.dropWhile_suffix jsIsSpace)
    -- value of `jsParseFloat` on a plain digit run
    have hint : ∀ ds : List Char, ds ≠ [] → (∀ c ∈ ds, isDigitC c = true) →
        jsParseFloat ds = .val ((digitsToNat ds : ℚ)) := by
      intro ds hdsne hdsd
      have hdrop : ds.dropWhile jsIsSpace = ds := by
        cases ds with
        | nil => rfl
        | cons c t => exact dropWhile_nospace _ (not_space_of_digit (hdsd c (by simp)))
      have htake := takeWhile_digit_run ds [] hdsd (by simp)
      rw [jsParseFloat]
      simp only [hdrop, List.append_nil] at htake ⊢
      rw [htake.1, htake.2]
      simp [hdsne]
    split at h
    · rename_i c r2 heq
      have heqlen := congrArg List.length heq
      simp only [List.length_cons] at heqlen
      split at h
      · rename_i hdot
        subst hdot
        split at h
        · -- `.` not followed by a digit: capture is the integer run
          injection h with h
          subst h
          refine ⟨⟨_, by positivity, hint _ hne' hds⟩, ?_, ?_⟩
          · exact heq ▸ hsufl1
          · show ('.' :: r2).length + 1 ≤ l.length
            simp only [List.length_cons]
            omega
        · -- fractional capture
          rename_i hds2ne
          injection h with h
          subst h
          have hds2 : ∀ c ∈ List.takeWhile isDigitC r2, isDigitC c = true :=
            fun c hc => List.mem_takeWhile_imp hc
          have hds2ne' : List.takeWhile isDigitC r2 ≠ [] := by
            simpa [List.isEmpty_iff] using hds2ne
          refine ⟨?_, ?_, ?_⟩
          · refine ⟨(digitsToNat (List.takeWhile isDigitC (l.dropWhile jsIsSpace)) : ℚ) +
              (digitsToNat (List.takeWhile isDigitC r2) : ℚ) /
                10 ^ (List.takeWhile isDigitC r2).length, by positivity, ?_⟩
            have hdrop : (List.takeWhile isDigitC (l.dropWhile jsIsSpace) ++
                '.' :: List.takeWhile isDigitC r2).dropWhile jsIsSpace =
                List.takeWhile isDigitC (l.dropWhile jsIsSpace) ++
                  '.' :: List.takeWhile isDigitC r2 := by
              cases hcase : List.takeWhile isDigitC (l.dropWhile jsIsSpace) with
              | nil => exact absurd hcase hne'
              | cons c t =>
                exact dropWhile_nospace _
                  (not_space_of_digit (hds c (by rw [hcase]; simp)))
            have htake := takeWhile_digit_run (List.takeWhile isDigitC (l.dropWhile jsIsSpace)) ('.' :: List.takeWhile isDigitC r2)
              hds (fun c hc => by simp at hc; subst hc; decide)
            have htake2 := takeWhile_digit_run (List.takeWhile isDigitC r2) [] hds2 (by simp)
            rw [jsParseFloat]
            simp only [hdrop, List.append_nil] at htake htake2 ⊢
            rw [htake.1, htake.2]
            simp [List.isEmpty_iff, hne', htake2.1]
          · exact (List.dropWhile_suffix isDigitC).trans
              ((List.suffix_cons '.' r2).trans (heq ▸ hsufl1))
          · have h1 : (r2.dropWhile isDigitC).length ≤ r2.length :=
              (List.dropWhile_suffix isDigitC).length_le
            show (r2.dropWhile isDigitC).length + 1 ≤ l.length
            omega
      · -- non-dot delimiter after the digits
        injection h with h
        subst h
        refine ⟨⟨_, by positivity, hint _ hne' hds⟩, heq ▸ hsufl1, ?_⟩
        show (c :: r2).length + 1 ≤ l.length
        simp only [List.length_cons]
        omega
    · -- digits reach the end of the input
      rename_i heq
      have heqlen := congrArg List.length heq
      simp only [List.length_nil] at heqlen
      injection h with h
      subst h
      refine ⟨⟨_, by positivity, hint _ hne' hds⟩, by simp, ?_⟩
      show (0 : ℕ) + 1 ≤ l.length
      omega

theorem afterRgb_inv {l : List Char}
    {t : List Char × List Char × List Char × List Char}
    (h : afterRgb l = some t) :
    t.2.2.2 <:+ l ∧ t.2.2.2.length + 6 ≤ l.length := by
  rw [afterRgb] at h
  rw [Option.bind_eq_some] at h
  obtain ⟨l1, h1, h⟩ := h
  rw [Option.bind_eq_some] at h
  obtain ⟨p1, h2, h⟩ := h
  rw [Option.bind_eq_some] at h
  obtain ⟨l3, h3, h⟩ := h
  rw [Option.bind_eq_some] at h
  obtain ⟨p2, h4, h⟩ := h
  rw [Option.bind_eq_some] at h
  obtain ⟨l5, h5, h⟩ := h
  rw [Option.bind_eq_some] at h
  obtain ⟨p3, h6, h⟩ := h
  injection h with h
  subst h
  have e1 := expectChar_inv h1
  have n1 := lexNum_inv h2
  have e2 := expectChar_inv h3
  have n2 := lexNum_inv h4
  have e3 := expectChar_inv h5
  have n3 := lexNum_inv h6
  have s1 : l1 <:+ l := (List.suffix_cons '(' l1).trans e1.1
  have s2 : l3 <:+ p1.2 := (List.suffix_cons ',' l3).trans e2.1
  have s3 : l5 <:+ p2.2 := (List.suffix_cons ',' l5).trans e3.1
  refine ⟨n3.2.2.1.trans (s3.trans (n2.2.2.1.trans (s2.trans (n1.2.2.1.trans s1)))), ?_⟩
  have := e1.2
  have := n1.2.2.2
  have := e2.2
  have := n2.2.2.2
  have := e3.2
  have := n3.2.2.2
  simp only [List.length_cons] at *
  omega

theorem matchRgb_inv {s : List Char} {t : List Char × List Char × List Char}
    (h : matchRgb s = some t) : 10 ≤ s.length ∧ s.getLast? = some ')' := by
  match s with
  | [] => exact absurd h (by simp [matchRgb])
  | [c1] => exact absurd h (by simp [matchRgb])
  | [c1, c2] => exact absurd h (by simp [matchRgb])
  | c1 :: c2 :: c3 :: rest =>
    simp only [matchRgb] at h
    split at h
    · rw [Option.bind_eq_some] at h
      obtain ⟨t', ha, h⟩ := h
      have hinv := afterRgb_inv ha
      split at h
      · rename_i r heq
        split at h
        · rename_i hr
          have hr' : r = [] := by simpa [List.isEmpty_iff] using hr
          subst hr'
          have he := expectChar_inv heq
          have hsuf : [')'] <:+ rest := (he.1.trans hinv.1)
          obtain ⟨pre, hpre⟩ := hsuf
          constructor
          · have h1 := he.2
            have h2 := hinv.2
            simp only [List.length_cons, List.length_nil] at *
            omega
          · have : c1 :: c2 :: c3 :: rest = (c1 :: c2 :: c3 :: pre) ++ [')'] := by
              simp [← hpre]
            rw [this, List.getLast?_concat]
        · exact absurd h (by simp)
      · exact absurd h (by simp)
    · exact absurd h (by simp)

/-- `matchRgb` fails as soon as the character after `rgb` is neither
whitespace nor `(` — in particular on every string matched by the rgba
pattern, whose fourth character is `a`/`A`. -/
theorem matchRgb_stuck {c1 c2 c3 c4 : Char} (l : List Char)
    (h4 : jsIsSpace c4 = false) (hne : c4 ≠ '(') :
    matchRgb (c1 :: c2 :: c3 :: c4 :: l) = none := by
  simp only [matchRgb]
  split
  · have : afterRgb (c4 :: l) = none := by
      rw [afterRgb, expectChar, dropWhile_nospace _ h4]
      simp [hne]
    rw [this, Option.none_bind]
  · rfl

theorem matchRgba_inv {s : List Char}
    {t : List Char × List Char × List Char × List Char}
    (h : matchRgba s = some t) :
    13 ≤ s.length ∧ (∃ q : ℚ, 0 ≤ q ∧ jsParseFloat t.2.2.2 = .val q) ∧
      matchRgb s = none := by
  match s with
  | [] => exact absurd h (by simp [matchRgba])
  | [c1] => exact absurd h (by simp [matchRgba])
  | [c1, c2] => exact absurd h (by simp [matchRgba])
  | [c1, c2, c3] => exact absurd h (by simp [matchRgba])
  | c1 :: c2 :: c3 :: c4 :: rest =>
    simp only [matchRgba] at h
    split at h
    · rename_i hcond
      rw [Option.bind_eq_some] at h
      obtain ⟨t', ha, h⟩ := h
      rw [Option.bind_eq_some] at h
      obtain ⟨l7, hc, h⟩ := h
      rw [Option.bind_eq_some] at h
      obtain ⟨p4, hx, h⟩ := h
      have hinv := afterRgb_inv ha
      have he := expectChar_inv hc
      have hax := lexAlpha_inv hx
      split at h
      · rename_i c r' heq
        split at h
        · rename_i hc'
          injection h with h
          subst h
          have hrgb : matchRgb (c1 :: c2 :: c3 :: c4 :: rest) = none := by
            rcases hcond.2.2.2 with h4 | h4 <;> subst h4 <;>
              exact matchRgb_stuck _ (by decide) (by decide)
          refine ⟨?_, hax.1, hrgb⟩
          have h1 := hinv.2
          have h2 := he.2
          have h3 := hax.2.2
          have h4 := congrArg List.length heq
          simp only [List.length_cons] at *
          omega
        · exact absurd h (by simp)
      · exact absurd h (by simp)
    · exact absurd h (by simp)

/-! ### Reducing `stringToRGBA` on functional-notation inputs -/

theorem stringToRGBA_functional {s : List Char}
    (h4 : s.length ≠ 4) (h7 : s.length ≠ 7) (h9 : s.length ≠ 9) :
    stringToRGBA s = functionalPart s := by
  simp [stringToRGBA, h4, h7, h9]

theorem stringToRGBA_rgb {s : List Char} {t : List Char × List Char × List Char}
    (h : matchRgb s = some t) :
    stringToRGBA s = ⟨.val ((digitsToNat t.1 : ℚ) / 255),
      .val ((digitsToNat t.2.1 : ℚ) / 255), .val ((digitsToNat t.2.2 : ℚ) / 255),
      none⟩ := by
  have hlen := (matchRgb_inv h).1
  rw [stringToRGBA_functional (by omega) (by omega) (by omega), functionalPart, h]

theorem stringToRGBA_rgba {s : List Char}
    {t : List Char × List Char × List Char × List Char}
    (h : matchRgba s = some t) :
    stringToRGBA s = ⟨.val ((digitsToNat t.1 : ℚ) / 255),
      .val ((digitsToNat t.2.1 : ℚ) / 255), .val ((digitsToNat t.2.2.1 : ℚ) / 255),
      some (jsParseFloat t.2.2.2)⟩ := by
  obtain ⟨hlen, -, hrgb⟩ := matchRgba_inv h
  rw [stringToRGBA_functional (by omega) (by omega) (by omega), functionalPart, hrgb, h]

/-! ### Decimal printing -/

theorem isDigitC_digitChar {d : ℕ} (h : d < 10) : isDigitC (Char.ofNat (48 + d)) = true := by
  interval_cases d <;> decide

theorem digitVal_digitChar {d : ℕ} (h : d < 10) : digitVal (Char.ofNat (48 + d)) = d := by
  interval_cases d <;> decide

theorem natToDigitsAux_eq (n : ℕ) : ∀ fuel acc, n < fuel →
    natToDigitsAux fuel n acc = natToDigits n ++ acc := by
  induction n using Nat.strong_induction_on with
  | _ n ih =>
    intro fuel acc hfuel
    match fuel with
    | 0 => omega
    | f + 1 =>
      by_cases h10 : n < 10
      · simp [natToDigitsAux, natToDigits, h10]
      · have hdivn : n / 10 < n := Nat.div_lt_self (by omega) (by omega)
        have hstep : natToDigitsAux (f + 1) n acc =
            natToDigitsAux f (n / 10) (Char.ofNat (48 + n % 10) :: acc) := by
          simp [natToDigitsAux, h10]
        rw [hstep, ih _ hdivn _ _ (by omega)]
        have hrhs : natToDigits n = natToDigits (n / 10) ++ [Char.ofNat (48 + n % 10)] := by
          rw [natToDigits]
          have : natToDigitsAux (n + 1) n [] =
              natToDigitsAux n (n / 10) [Char.ofNat (48 + n % 10)] := by
            simp [natToDigitsAux, h10]
          rw [this, ih _ hdivn _ _ (by omega)]
        rw [hrhs]
        simp

theorem natToDigits_step (n : ℕ) :
    natToDigits n = if n < 10 then [Char.ofNat (48 + n)]
      else natToDigits (n / 10) ++ [Char.ofNat (48 + n % 10)] := by
  by_cases h10 : n < 10
  · simp [natToDigits, natToDigitsAux, h10]
  · have hdivn : n / 10 < n := Nat.div_lt_self (by omega) (by omega)
    rw [natToDigits]
    have : natToDigitsAux (n + 1) n [] =
        natToDigitsAux n (n / 10) [Char.ofNat (48 + n % 10)] := by
      simp [natToDigitsAux, h10]
    rw [this, natToDigitsAux_eq _ _ _ (by omega)]
    simp [h10]

theorem natToDigits_ne_nil (n : ℕ) : natToDigits n ≠ [] := by
  rw [natToDigits_step]
  split <;> simp

theorem natToDigits_digits (n : ℕ) : ∀ c ∈ natToDigits n, isDigitC c = true := by
  induction n using Nat.strong_induction_on with
  | _ n ih =>
    rw [natToDigits_step]
    by_cases h10 : n < 10
    · simp only [h10, if_true, List.mem_singleton]
      rintro c rfl
      exact isDigitC_digitChar h10
    · have hdivn : n / 10 < n := Nat.div_lt_self (by omega) (by omega)
      simp only [h10, if_false, List.mem_append, List.mem_singleton]
      rintro c (hc | rfl)
      · exact ih _ hdivn c hc
      · exact isDigitC_digitChar (Nat.mod_lt _ (by omega))

theorem digitsToNat_concat (l : List Char) (c : Char) :
    digitsToNat (l ++ [c]) = 10 * digitsToNat l + digitVal c := by
  simp [digitsToNat, List.foldl_append]

theorem digitsToNat_natToDigits (n : ℕ) : digitsToNat (natToDigits n) = n := by
  induction n using Nat.strong_induction_on with
  | _ n ih =>
    rw [natToDigits_step]
    by_cases h10 : n < 10
    · simp only [h10, if_true]
      show digitsToNat ([] ++ [Char.ofNat (48 + n)]) = n
      rw [digitsToNat_concat]
      simp [digitsToNat, digitVal_digitChar h10]
    · have hdivn : n / 10 < n := Nat.div_lt_self (by omega) (by omega)
      simp only [h10, if_false]
      rw [digitsToNat_concat, ih _ hdivn, digitVal_digitChar (Nat.mod_lt _ (by omega))]
      omega

/-! ### Serializer components -/

theorem roundStr_nonneg {r : ℚ} (h : 0 ≤ r) :
    roundStr (jsMul (.val r) 255) = natToDigits (⌊r * 255 + 1/2⌋).toNat := by
  have hfl : (0 : ℤ) ≤ ⌊r * 255 + 1/2⌋ := Int.floor_nonneg.mpr (by positivity)
  simp only [roundStr, jsMul, jsRound, intToDigits]
  rw [if_neg (by omega)]

theorem roundStr_natDiv (k : ℕ) :
    roundStr (jsMul (.val ((k : ℚ) / 255)) 255) = natToDigits k := by
  have hmul : ((k : ℚ) / 255) * 255 = (k : ℚ) := by
    field_simp
  have hfl : ⌊(k : ℚ) + 1/2⌋ = (k : ℤ) := by
    rw [show ((k : ℚ) + 1/2) = (1/2 : ℚ) + ((k : ℤ) : ℚ) by push_cast; ring,
      Int.floor_add_int]
    norm_num
  simp only [roundStr, jsMul, jsRound, hmul, hfl, intToDigits]
  rw [if_neg (by omega)]
  simp

theorem toFixed3_nonneg {a : ℚ} (h : 0 ≤ a) :
    toFixed3 (.val a) = natToDigits ((⌊a * 1000 + 1/2⌋).toNat / 1000) ++
      '.' :: pad3 ((⌊a * 1000 + 1/2⌋).toNat % 1000) := by
  rw [toFixed3]
  rw [if_neg (by simpa using h)]
  rfl

theorem pad3_digits (f : ℕ) : ∀ c ∈ pad3 f, isDigitC c = true := by
  intro c hc
  rw [pad3] at hc
  simp only [List.mem_cons, List.mem_singleton, List.not_mem_nil, or_false] at hc
  rcases hc with rfl | rfl | rfl <;>
    exact isDigitC_digitChar (Nat.mod_lt _ (by omega))

theorem pad3_ne_nil (f : ℕ) : pad3 f ≠ [] := by
  rw [pad3]; simp

theorem digitsToNat_pad3 {f : ℕ} (hf : f < 1000) : digitsToNat (pad3 f) = f := by
  rw [pad3]
  show 10 * (10 * (10 * 0 + digitVal (Char.ofNat (48 + f / 100 % 10))) +
      digitVal (Char.ofNat (48 + f / 10 % 10))) + digitVal (Char.ofNat (48 + f % 10)) = f
  rw [digitVal_digitChar (Nat.mod_lt _ (by omega)),
    digitVal_digitChar (Nat.mod_lt _ (by omega)),
    digitVal_digitChar (Nat.mod_lt _ (by omega))]
  omega

theorem jsParseFloat_digits {d : List Char} (hne : d ≠ [])
    (hd : ∀ c ∈ d, isDigitC c = true) :
    jsParseFloat d = .val ((digitsToNat d : ℚ)) := by
  have hdrop : d.dropWhile jsIsSpace = d := by
    cases d with
    | nil => rfl
    | cons c t => exact dropWhile_nospace _ (not_space_of_digit (hd c (by simp)))
  have htake := takeWhile_digit_run d [] hd (by simp)
  rw [jsParseFloat]
  simp only [hdrop, List.append_nil] at htake ⊢
  rw [htake.1, htake.2]
  simp [hne]

theorem jsParseFloat_frac {di df : List Char} (hdine : di ≠ [])
    (hdi : ∀ c ∈ di, isDigitC c = true)
    (hdf : ∀ c ∈ df, isDigitC c = true) :
    jsParseFloat (di ++ '.' :: df) =
      .val ((digitsToNat di : ℚ) + (digitsToNat df : ℚ) / 10 ^ df.length) := by
  have hdrop : (di ++ '.' :: df).dropWhile jsIsSpace = di ++ '.' :: df := by
    cases di with
    | nil => exact absurd rfl hdine
    | cons c t =>
      exact dropWhile_nospace _ (not_space_of_digit (hdi c (by simp)))
  have htake := takeWhile_digit_run di ('.' :: df) hdi
    (fun c hc => by simp at hc; subst hc; decide)
  have htakedf := takeWhile_digit_run df [] hdf (by simp)
  rw [jsParseFloat]
  simp only [List.append_nil] at htakedf
  simp only [hdrop]
  rw [htake.1, htake.2]
  simp [hdine, htakedf.1]

/-- The channel-closeness relation is reflexive on ordinary numbers. -/
theorem chanClose_refl (q : ℚ) : chanClose (.val q) (.val q) :=
  ⟨q, q, rfl, rfl, by simp⟩

theorem spaces_nil : ∀ c ∈ ([] : List Char), jsIsSpace c = true := by simp

theorem spaces_one : ∀ c ∈ [' '], jsIsSpace c = true := by
  intro c hc
  simp at hc
  subst hc
  decide

/-! ### Round-trip through the serializer -/

theorem roundtrip_rgb {s : List Char} {t : List Char × List Char × List Char}
    (h : matchRgb s = some t) :
    stringToRGBA (serializeRGBA (stringToRGBA s)) = stringToRGBA s := by
  rw [stringToRGBA_rgb h]
  have hlit : "rgb(".data = ['r', 'g', 'b', '('] := rfl
  have hsep : ", ".data = [',', ' '] := rfl
  have hcl : ")".data = [')'] := rfl
  have hser : serializeRGBA ⟨.val ((digitsToNat t.1 : ℚ) / 255),
      .val ((digitsToNat t.2.1 : ℚ) / 255), .val ((digitsToNat t.2.2 : ℚ) / 255),
      none⟩ =
      'r' :: 'g' :: 'b' :: '(' :: (natToDigits (digitsToNat t.1) ++ ',' :: ' ' ::
        (natToDigits (digitsToNat t.2.1) ++ ',' :: ' ' ::
          (natToDigits (digitsToNat t.2.2) ++ [')']))) := by
    simp only [serializeRGBA, roundStr_natDiv, hlit, hsep, hcl]
    simp [List.cons_append, List.append_assoc]
  rw [hser]
  have hmatch := matchRgb_spec [] [] [] [' '] [] [' '] []
    (natToDigits (digitsToNat t.1)) (natToDigits (digitsToNat t.2.1))
    (natToDigits (digitsToNat t.2.2))
    spaces_nil spaces_nil spaces_nil spaces_one spaces_nil spaces_one spaces_nil
    (natToDigits_ne_nil _) (natToDigits_digits _)
    (natToDigits_ne_nil _) (natToDigits_digits _)
    (natToDigits_ne_nil _) (natToDigits_digits _)
  simp only [List.nil_append, List.singleton_append, List.cons_append,
    List.append_assoc] at hmatch
  rw [stringToRGBA_rgb hmatch]
  simp [digitsToNat_natToDigits]

theorem roundtrip_rgba_parse {s : List Char}
    {t : List Char × List Char × List Char × List Char}
    (h : matchRgba s = some t) {q : ℚ} (hq : 0 ≤ q)
    (hfloat : jsParseFloat t.2.2.2 = .val q) :
    stringToRGBA (serializeRGBA (stringToRGBA s)) =
      ⟨.val ((digitsToNat t.1 : ℚ) / 255), .val ((digitsToNat t.2.1 : ℚ) / 255),
        .val ((digitsToNat t.2.2.1 : ℚ) / 255),
        some (.val (((⌊q * 1000 + 1/2⌋).toNat : ℚ) / 1000))⟩ := by
  rw [stringToRGBA_rgba h, hfloat]
  have hlit : "rgba(".data = ['r', 'g', 'b', 'a', '('] := rfl
  have hsep : ", ".data = [',', ' '] := rfl
  have hcl : ")".data = [')'] := rfl
  have hser : serializeRGBA ⟨.val ((digitsToNat t.1 : ℚ) / 255),
      .val ((digitsToNat t.2.1 : ℚ) / 255), .val ((digitsToNat t.2.2.1 : ℚ) / 255),
      some (.val q)⟩ =
      'r' :: 'g' :: 'b' :: 'a' :: '(' :: (natToDigits (digitsToNat t.1) ++ ',' :: ' ' ::
        (natToDigits (digitsToNat t.2.1) ++ ',' :: ' ' ::
          (natToDigits (digitsToNat t.2.2.1) ++ ',' :: ' ' ::
            (natToDigits ((⌊q * 1000 + 1/2⌋).toNat / 1000) ++
              '.' :: (pad3 ((⌊q * 1000 + 1/2⌋).toNat % 1000) ++ [')']))))) := by
    simp only [serializeRGBA, roundStr_natDiv, toFixed3_nonneg hq, hlit, hsep, hcl]
    simp [List.cons_append, List.append_assoc]
  rw [hser]
  have hA : alphaShape (natToDigits ((⌊q * 1000 + 1/2⌋).toNat / 1000) ++
      '.' :: pad3 ((⌊q * 1000 + 1/2⌋).toNat % 1000)) :=
    Or.inr ⟨_, _, rfl, natToDigits_ne_nil _, pad3_ne_nil _,
      natToDigits_digits _, pad3_digits _⟩
  have hmatch := matchRgba_spec [] [] [] [' '] [] [' '] [] [' ']
    (natToDigits (digitsToNat t.1)) (natToDigits (digitsToNat t.2.1))
    (natToDigits (digitsToNat t.2.2.1))
    (natToDigits ((⌊q * 1000 + 1/2⌋).toNat / 1000) ++
      '.' :: pad3 ((⌊q * 1000 + 1/2⌋).toNat % 1000)) []
    spaces_nil spaces_nil spaces_nil spaces_one spaces_nil spaces_one spaces_nil
    spaces_one
    (natToDigits_ne_nil _) (natToDigits_digits _)
    (natToDigits_ne_nil _) (natToDigits_digits _)
    (natToDigits_ne_nil _) (natToDigits_digits _) hA
  simp only [List.nil_append, List.singleton_append, List.cons_append,
    List.append_assoc] at hmatch
  rw [stringToRGBA_rgba hmatch]
  rw [jsParseFloat_frac (natToDigits_ne_nil _) (natToDigits_digits _) (pad3_digits _)]
  have hm := Nat.div_add_mod (⌊q * 1000 + 1/2⌋).toNat 1000
  have hmod : (⌊q * 1000 + 1/2⌋).toNat % 1000 < 1000 := Nat.mod_lt _ (by omega)
  rw [digitsToNat_natToDigits, digitsToNat_natToDigits, digitsToNat_natToDigits,
    digitsToNat_natToDigits, digitsToNat_pad3 hmod]
  have hlen3 : (pad3 ((⌊q * 1000 + 1/2⌋).toNat % 1000)).length = 3 := rfl
  rw [hlen3]
  congr 2
  rw [show ((10 : ℚ) ^ 3) = 1000 by norm_num]
  have h1000 : ((⌊q * 1000 + 1/2⌋).toNat : ℚ) =
      1000 * (((⌊q * 1000 + 1/2⌋).toNat / 1000 : ℕ) : ℚ) +
        (((⌊q * 1000 + 1/2⌋).toNat % 1000 : ℕ) : ℚ) := by
    exact_mod_cast congrArg (fun n : ℕ => (n : ℚ)) hm.symm
  rw [h1000]
  ring_nf

/-! ### `parseInt(-, 16)` on the hex substrings -/

theorem hexVal_lt (c : Char) : hexVal c < 16 := by
  unfold hexVal
  split_ifs <;> omega

theorem jsParseIntHex_hex1 {c : Char} (h : isHexC c = true) :
    jsParseIntHex [c] = .val ((hexVal c : ℚ)) := by
  have hc := isHexC_iff.mp h
  have hdrop : List.dropWhile jsIsSpace [c] = [c] :=
    dropWhile_nospace _ (not_space_of_hex h)
  rw [jsParseIntHex, hdrop]
  show (if c = '-' then jsNeg (hexBody []) else if c = '+' then hexBody []
    else hexBody [c]) = .val ((hexVal c : ℚ))
  rw [if_neg (by rintro rfl; exact absurd h (by decide)),
    if_neg (by rintro rfl; exact absurd h (by decide))]
  show (if (List.takeWhile isHexC [c]).isEmpty then JSNum.nan
    else .val ((hexToNat (List.takeWhile isHexC [c]) : ℚ))) = .val ((hexVal c : ℚ))
  simp only [List.takeWhile_cons, h, if_true, List.takeWhile_nil]
  simp [hexToNat]

theorem jsParseIntHex_hex2 {c1 c2 : Char} (h1 : isHexC c1 = true)
    (h2 : isHexC c2 = true) :
    jsParseIntHex [c1, c2] = .val ((16 * hexVal c1 + hexVal c2 : ℕ) : ℚ) := by
  have hdrop : List.dropWhile jsIsSpace [c1, c2] = [c1, c2] :=
    dropWhile_nospace _ (not_space_of_hex h1)
  rw [jsParseIntHex, hdrop]
  show (if c1 = '-' then jsNeg (hexBody [c2]) else if c1 = '+' then hexBody [c2]
    else hexBody [c1, c2]) = .val ((16 * hexVal c1 + hexVal c2 : ℕ) : ℚ)
  rw [if_neg (by rintro rfl; exact absurd h1 (by decide)),
    if_neg (by rintro rfl; exact absurd h1 (by decide))]
  have h0x : ¬(c1 = '0' ∧ (c2 = 'x' ∨ c2 = 'X')) := by
    rintro ⟨-, hx | hx⟩ <;> (subst hx; exact absurd h2 (by decide))
  show (if (((if c1 = '0' ∧ (c2 = 'x' ∨ c2 = 'X') then [] else [c1, c2]).takeWhile
      isHexC)).isEmpty then JSNum.nan
    else .val ((hexToNat ((if c1 = '0' ∧ (c2 = 'x' ∨ c2 = 'X') then []
      else [c1, c2]).takeWhile isHexC) : ℚ))) = .val ((16 * hexVal c1 + hexVal c2 : ℕ) : ℚ)
  rw [if_neg h0x]
  simp only [List.takeWhile_cons, h1, h2, if_true, List.takeWhile_nil]
  simp [hexToNat]

theorem jsParseIntHex_bad1 {c : Char} (h : isHexC c = false) :
    jsParseIntHex [c] = .nan := by
  by_cases hsp : jsIsSpace c = true
  · have hdrop : List.dropWhile jsIsSpace [c] = [] := by
      simp [List.dropWhile_cons, hsp]
    rw [jsParseIntHex, hdrop]
    rfl
  · have hdrop : List.dropWhile jsIsSpace [c] = [c] :=
      dropWhile_nospace _ (by simpa using hsp)
    rw [jsParseIntHex, hdrop]
    show (if c = '-' then jsNeg (hexBody []) else if c = '+' then hexBody []
      else hexBody [c]) = .nan
    by_cases hminus : c = '-'
    · subst hminus; rfl
    · by_cases hplus : c = '+'
      · subst hplus; rfl
      · rw [if_neg hminus, if_neg hplus]
        show (if (List.takeWhile isHexC [c]).isEmpty then JSNum.nan
          else .val ((hexToNat (List.takeWhile isHexC [c]) : ℚ))) = .nan
        simp [List.takeWhile_cons, h]

/-! ### Failure of the matchers on short strings -/

theorem matchRgb_none_of_short {s : List Char} (h : s.length < 10) :
    matchRgb s = none := by
  cases hm : matchRgb s with
  | none => rfl
  | some t =>
    have := (matchRgb_inv hm).1
    omega

theorem matchRgba_none_of_short {s : List Char} (h : s.length < 13) :
    matchRgba s = none := by
  cases hm : matchRgba s with
  | none => rfl
  | some t =>
    have := (matchRgba_inv hm).1
    omega

theorem stringToRGBA_fallback_of_len {s : List Char}
    (hlen : s.length = 4 ∨ s.length = 7 ∨ s.length = 9)
    (hhash : s.head? ≠ some '#') : stringToRGBA s = fallbackRGBA := by
  rcases hlen with h | h | h <;> simp [stringToRGBA, h, hhash]

theorem functionalPart_fallback {s : List Char} (hrgb : matchRgb s = none)
    (hrgba : matchRgba s = none) : functionalPart s = fallbackRGBA := by
  rw [functionalPart, hrgb, hrgba]

theorem exists_cons_of_len {l : List Char} {n : ℕ} (h : l.length = n + 1) :
    ∃ c t, l = c :: t ∧ t.length = n := by
  cases l with
  | nil => simp at h
  | cons c t => exact ⟨c, t, rfl, by simpa using h⟩

theorem eq_list4 {l : List Char} (h : l.length = 4) :
    ∃ a b c d, l = [a, b, c, d] := by
  obtain ⟨a, t1, rfl, h1⟩ := exists_cons_of_len h
  obtain ⟨b, t2, rfl, h2⟩ := exists_cons_of_len h1
  obtain ⟨c, t3, rfl, h3⟩ := exists_cons_of_len h2
  obtain ⟨d, t4, rfl, h4⟩ := exists_cons_of_len h3
  rw [List.length_eq_zero] at h4
  subst h4
  exact ⟨a, b, c, d, rfl⟩

theorem eq_list7 {l : List Char} (h : l.length = 7) :
    ∃ a b c d e f g, l = [a, b, c, d, e, f, g] := by
  obtain ⟨a, t1, rfl, h1⟩ := exists_cons_of_len h
  obtain ⟨b, t2, rfl, h2⟩ := exists_cons_of_len h1
  obtain ⟨c, t3, rfl, h3⟩ := exists_cons_of_len h2
  obtain ⟨a4, b4, c4, d4, rfl⟩ := eq_list4 h3
  exact ⟨a, b, c, a4, b4, c4, d4, rfl⟩

theorem eq_list9 {l : List Char} (h : l.length = 9) :
    ∃ a b c d e f g x y, l = [a, b, c, d, e, f, g, x, y] := by
  obtain ⟨a, t1, rfl, h1⟩ := exists_cons_of_len h
  obtain ⟨b, t2, rfl, h2⟩ := exists_cons_of_len h1
  obtain ⟨a7, b7, c7, d7, e7, f7, g7, rfl⟩ := eq_list7 h2
  exact ⟨a, b, a7, b7, c7, d7, e7, f7, g7, rfl⟩

/-! ### The three hex branches, fully reduced -/

theorem stringToRGBA_hex4 (c1 c2 c3 : Char) :
    stringToRGBA ['#', c1, c2, c3] =
      ⟨jsDiv (jsParseIntHex [c1]) 15, jsDiv (jsParseIntHex [c2]) 15,
       jsDiv (jsParseIntHex [c3]) 15, none⟩ := rfl

theorem stringToRGBA_hex7 (c1 c2 c3 c4 c5 c6 : Char) :
    stringToRGBA ['#', c1, c2, c3, c4, c5, c6] =
      ⟨jsDiv (jsParseIntHex [c1, c2]) 255, jsDiv (jsParseIntHex [c3, c4]) 255,
       jsDiv (jsParseIntHex [c5, c6]) 255, none⟩ := rfl

theorem stringToRGBA_hex9 (c1 c2 c3 c4 c5 c6 c7 c8 : Char) :
    stringToRGBA ['#', c1, c2, c3, c4, c5, c6, c7, c8] =
      ⟨jsDiv (jsParseIntHex [c1, c2]) 255, jsDiv (jsParseIntHex [c3, c4]) 255,
       jsDiv (jsParseIntHex [c5, c6]) 255,
       some (jsDiv (jsParseIntHex [c7, c8]) 255)⟩ := rfl

theorem inUnit_hex1 {c : Char} (h : isHexC c = true) :
    inUnit (jsDiv (jsParseIntHex [c]) 15) := by
  rw [jsParseIntHex_hex1 h, jsDiv]
  refine ⟨_, rfl, by positivity, ?_⟩
  rw [div_le_one (by norm_num)]
  exact_mod_cast Nat.le_of_lt_succ (hexVal_lt c)

theorem inUnit_hex2 {c1 c2 : Char} (h1 : isHexC c1 = true) (h2 : isHexC c2 = true) :
    inUnit (jsDiv (jsParseIntHex [c1, c2]) 255) := by
  rw [jsParseIntHex_hex2 h1 h2, jsDiv]
  refine ⟨_, rfl, by positivity, ?_⟩
  rw [div_le_one (by norm_num)]
  have ha := hexVal_lt c1
  have hb := hexVal_lt c2
  exact_mod_cast by omega

theorem fallback_inRange : fallbackRGBA.inRange := by
  refine ⟨⟨0, rfl, le_refl _, zero_le_one⟩, ⟨0, rfl, le_refl _, zero_le_one⟩,
    ⟨0, rfl, le_refl _, zero_le_one⟩, ?_⟩
  intro x hx
  injection hx with hx
  exact ⟨0, hx.symm, le_refl _, zero_le_one⟩

/-! ## The claims -/

/-- C1: every input that matches none of the five recognized notations
(length-4/7/9 `#`-strings, the rgb pattern, the rgba pattern) silently
yields the fallback `{r:0, g:0, b:0, a:0}` — `parse` raises no error (it
is a total function). -/
theorem parse_fallback_on_unrecognized (s : String)
    (hshape : ¬((s.data.length = 4 ∨ s.data.length = 7 ∨ s.data.length = 9) ∧
      s.data.head? = some '#'))
    (hrgb : matchRgb s.data = none) (hrgba : matchRgba s.data = none) :
    parse s = fallbackRGBA := by
  rw [parse]
  by_cases hlen : s.data.length = 4 ∨ s.data.length = 7 ∨ s.data.length = 9
  · exact stringToRGBA_fallback_of_len hlen fun hh => hshape ⟨hlen, hh⟩
  · push_neg at hlen
    rw [stringToRGBA_functional hlen.1 hlen.2.1 hlen.2.2]
    exact functionalPart_fallback hrgb hrgba

theorem parse_fallback_on_unrecognized_witness :
    (¬((("not-a-color" : String).data.length = 4 ∨
        ("not-a-color" : String).data.length = 7 ∨
        ("not-a-color" : String).data.length = 9) ∧
      ("not-a-color" : String).data.head? = some '#') ∧
     matchRgb ("not-a-color" : String).data = none ∧
     matchRgba ("not-a-color" : String).data = none) ∧
    parse "not-a-color" = fallbackRGBA :=
  ⟨⟨by decide, by decide, by decide⟩,
   parse_fallback_on_unrecognized "not-a-color" (by decide) (by decide) (by decide)⟩

/-- C4: whenever the rgba pattern matches, the three integer captures are
divided by 255 and the fourth capture is taken verbatim as a decimal number
(not divided); in particular `parse "rgba(255,255,255,0.5)"` is exactly
`{r:1, g:1, b:1, a:0.5}`. -/
theorem rgba_captures_div255_alpha_verbatim :
    (∀ (s : String) t, matchRgba s.data = some t →
      parse s = ⟨.val ((digitsToNat t.1 : ℚ) / 255),
        .val ((digitsToNat t.2.1 : ℚ) / 255), .val ((digitsToNat t.2.2.1 : ℚ) / 255),
        some (jsParseFloat t.2.2.2)⟩) ∧
    parse "rgba(255,255,255,0.5)" = ⟨.val 1, .val 1, .val 1, some (.val (1/2))⟩ :=
  ⟨fun _ _ h => stringToRGBA_rgba h, by decide⟩

theorem rgba_captures_div255_alpha_verbatim_witness :
    matchRgba ("rgba(255,255,255,0.5)" : String).data =
      some (['2', '5', '5'], ['2', '5', '5'], ['2', '5', '5'], ['0', '.', '5']) ∧
    parse "rgba(255,255,255,0.5)" = ⟨.val 1, .val 1, .val 1, some (.val (1/2))⟩ :=
  ⟨by decide,
   (rgba_captures_div255_alpha_verbatim.1 "rgba(255,255,255,0.5)"
     (['2', '5', '5'], ['2', '5', '5'], ['2', '5', '5'], ['0', '.', '5'])
     (by decide)).trans (by decide)⟩

/-- C5: a 4-character `#`-string of hex digits parses to each nibble
divided by 15, with the alpha field absent; e.g.
`parse "#00F" = {r:0, g:0, b:1}`. -/
theorem short_hex_parse :
    (∀ c1 c2 c3 : Char, isHexC c1 = true → isHexC c2 = true → isHexC c3 = true →
      parse ⟨['#', c1, c2, c3]⟩ =
        ⟨.val ((hexVal c1 : ℚ) / 15), .val ((hexVal c2 : ℚ) / 15),
         .val ((hexVal c3 : ℚ) / 15), none⟩) ∧
    parse "#00F" = ⟨.val 0, .val 0, .val 1, none⟩ := by
  constructor
  · intro c1 c2 c3 h1 h2 h3
    show stringToRGBA ['#', c1, c2, c3] = _
    rw [stringToRGBA_hex4, jsParseIntHex_hex1 h1, jsParseIntHex_hex1 h2,
      jsParseIntHex_hex1 h3]
    rfl
  · decide

theorem short_hex_parse_witness :
    (isHexC '0' = true ∧ isHexC 'F' = true) ∧
    parse ⟨['#', '0', '0', 'F']⟩ = ⟨.val 0, .val 0, .val 1, none⟩ :=
  ⟨⟨by decide, by decide⟩,
   (short_hex_parse.1 '0' '0' 'F' (by decide) (by decide) (by decide)).trans (by decide)⟩

/-- C8: a string of length 4, 7 or 9 that does not start with `#` gets the
same result as the functional-notation checks — the fallback, since no
string that short can match either pattern. -/
theorem len479_nonhash_functional (s : String)
    (hlen : s.data.length = 4 ∨ s.data.length = 7 ∨ s.data.length = 9)
    (hhash : s.data.head? ≠ some '#') :
    parse s = functionalPart s.data ∧ parse s = fallbackRGBA := by
  have h1 : parse s = fallbackRGBA := stringToRGBA_fallback_of_len hlen hhash
  have h2 : functionalPart s.data = fallbackRGBA :=
    functionalPart_fallback (matchRgb_none_of_short (by omega))
      (matchRgba_none_of_short (by omega))
  exact ⟨h1.trans h2.symm, h1⟩

theorem len479_nonhash_functional_witness :
    (("abcd" : String).data.length = 4 ∧ ("abcd" : String).data.head? ≠ some '#') ∧
    parse "abcd" = functionalPart ("abcd" : String).data ∧
      parse "abcd" = fallbackRGBA :=
  ⟨⟨by decide, by decide⟩,
   len479_nonhash_functional "abcd" (Or.inl (by decide)) (by decide)⟩

/-- C10: the rgba pattern is not anchored at the end of the string — a
well-formed rgba form followed by arbitrary garbage parses to the same
color as the form alone — whereas the rgb pattern requires the closing
parenthesis to be the last character of the string. -/
theorem rgba_unanchored_rgb_anchored :
    (parse "rgba(1,2,3,0.5)garbage" = parse "rgba(1,2,3,0.5)" ∧
     parse "rgba(1,2,3,0.5)" =
       ⟨.val (1/255), .val (2/255), .val (3/255), some (.val (1/2))⟩ ∧
     parse "rgb(1,2,3)x" = fallbackRGBA) ∧
    ∀ (s : List Char) t, matchRgb s = some t → s.getLast? = some ')' :=
  ⟨by refine ⟨by decide, by decide, by decide⟩,
   fun _ _ h => (matchRgb_inv h).2⟩

theorem rgba_unanchored_rgb_anchored_witness :
    matchRgb ("rgb(1,2,3)" : String).data = some (['1'], ['2'], ['3']) ∧
    ("rgb(1,2,3)" : String).data.getLast? = some ')' :=
  ⟨by decide,
   rgba_unanchored_rgb_anchored.2 ("rgb(1,2,3)" : String).data
     (['1'], ['2'], ['3']) (by decide)⟩

/-- C2 counterexample: the claim "every parse result has channels in
[0, 1]" is false — the rgb pattern accepts unboundedly large decimal
captures, and `parse "rgb(999,0,0)"` has `r = 999/255 > 1`. -/
theorem parse_range_counterexample : ¬ (parse "rgb(999,0,0)").inRange := by
  have hr : (parse "rgb(999,0,0)").r = .val (999/255) := by decide
  rintro ⟨⟨q, hq, -, h1⟩, -⟩
  rw [hr] at hq
  injection hq with hq
  rw [← hq] at h1
  norm_num at h1

/-- C2 amended: the channels of `parse` lie in [0, 1] provided the hex
digits of a `#`-shaped input are valid hex characters, and the decimal
captures of a functional-notation input are at most 255 (with an alpha
capture of value at most 1). -/
theorem parse_channels_in_range_amended (s : String)
    (hhex : (s.data.length = 4 ∨ s.data.length = 7 ∨ s.data.length = 9) →
      s.data.head? = some '#' → ∀ c ∈ s.data.drop 1, isHexC c = true)
    (hrgb : ∀ t, matchRgb s.data = some t →
      digitsToNat t.1 ≤ 255 ∧ digitsToNat t.2.1 ≤ 255 ∧ digitsToNat t.2.2 ≤ 255)
    (hrgba : ∀ t, matchRgba s.data = some t →
      digitsToNat t.1 ≤ 255 ∧ digitsToNat t.2.1 ≤ 255 ∧ digitsToNat t.2.2.1 ≤ 255 ∧
        ∀ q : ℚ, jsParseFloat t.2.2.2 = .val q → q ≤ 1) :
    (parse s).inRange := by
  rw [parse]
  by_cases h4 : s.data.length = 4
  · by_cases hh : s.data.head? = some '#'
    · obtain ⟨a, b, c, d, he⟩ := eq_list4 h4
      have ha : a = '#' := by rw [he] at hh; simpa using hh
      subst ha
      have hx := hhex (Or.inl h4) hh
      rw [he] at hx ⊢
      rw [stringToRGBA_hex4]
      exact ⟨inUnit_hex1 (hx b (by simp)), inUnit_hex1 (hx c (by simp)),
        inUnit_hex1 (hx d (by simp)), fun x hx2 => by cases hx2⟩
    · rw [stringToRGBA_fallback_of_len (Or.inl h4) hh]
      exact fallback_inRange
  · by_cases h7 : s.data.length = 7
    · by_cases hh : s.data.head? = some '#'
      · obtain ⟨a, b, c, d, e, f, g, he⟩ := eq_list7 h7
        have ha : a = '#' := by rw [he] at hh; simpa using hh
        subst ha
        have hx := hhex (Or.inr (Or.inl h7)) hh
        rw [he] at hx ⊢
        rw [stringToRGBA_hex7]
        exact ⟨inUnit_hex2 (hx b (by simp)) (hx c (by simp)),
          inUnit_hex2 (hx d (by simp)) (hx e (by simp)),
          inUnit_hex2 (hx f (by simp)) (hx g (by simp)),
          fun x hx2 => by cases hx2⟩
      · rw [stringToRGBA_fallback_of_len (Or.inr (Or.inl h7)) hh]
        exact fallback_inRange
    · by_cases h9 : s.data.length = 9
      · by_cases hh : s.data.head? = some '#'
        · obtain ⟨a, b, c, d, e, f, g, x, y, he⟩ := eq_list9 h9
          have ha : a = '#' := by rw [he] at hh; simpa using hh
          subst ha
          have hx := hhex (Or.inr (Or.inr h9)) hh
          rw [he] at hx ⊢
          rw [stringToRGBA_hex9]
          refine ⟨inUnit_hex2 (hx b (by simp)) (hx c (by simp)),
            inUnit_hex2 (hx d (by simp)) (hx e (by simp)),
            inUnit_hex2 (hx f (by simp)) (hx g (by simp)), ?_⟩
          intro z hz
          injection hz with hz
          rw [← hz]
          exact inUnit_hex2 (hx x (by simp)) (hx y (by simp))
        · rw [stringToRGBA_fallback_of_len (Or.inr (Or.inr h9)) hh]
          exact fallback_inRange
      · rw [stringToRGBA_functional h4 h7 h9]
        cases hm : matchRgb s.data with
        | some t =>
          rw [functionalPart, hm]
          obtain ⟨hb1, hb2, hb3⟩ := hrgb t hm
          refine ⟨⟨_, rfl, by positivity, ?_⟩, ⟨_, rfl, by positivity, ?_⟩,
            ⟨_, rfl, by positivity, ?_⟩, fun x hx2 => by cases hx2⟩ <;>
            (rw [div_le_one (by norm_num)]; exact_mod_cast ‹_ ≤ 255›)
        | none =>
          cases hma : matchRgba s.data with
          | some t =>
            rw [functionalPart, hm, hma]
            obtain ⟨hb1, hb2, hb3, hbal⟩ := hrgba t hma
            obtain ⟨-, ⟨q, hq0, hfl⟩, -⟩ := matchRgba_inv hma
            refine ⟨⟨_, rfl, by positivity, ?_⟩, ⟨_, rfl, by positivity, ?_⟩,
              ⟨_, rfl, by positivity, ?_⟩, ?_⟩
            · rw [div_le_one (by norm_num)]; exact_mod_cast hb1
            · rw [div_le_one (by norm_num)]; exact_mod_cast hb2
            · rw [div_le_one (by norm_num)]; exact_mod_cast hb3
            · intro z hz
              injection hz with hz
              rw [← hz, hfl]
              exact ⟨q, rfl, hq0, hbal q hfl⟩
          | none =>
            rw [functionalPart, hm, hma]
            exact fallback_inRange

theorem parse_channels_in_range_amended_witness :
    ((("#00F" : String).data.length = 4 ∧ ("#00F" : String).data.head? = some '#' ∧
        ∀ c ∈ ("#00F" : String).data.drop 1, isHexC c = true) ∧
      matchRgb ("#00F" : String).data = none ∧
      matchRgba ("#00F" : String).data = none) ∧
    (parse "#00F").inRange :=
  ⟨⟨⟨by decide, by decide, by decide⟩, by decide, by decide⟩,
   parse_channels_in_range_amended "#00F"
     (fun _ _ => by decide)
     (fun t ht => by
       have h0 : matchRgb ("#00F" : String).data = none := by decide
       rw [h0] at ht
       cases ht)
     (fun t ht => by
       have h0 : matchRgba ("#00F" : String).data = none := by decide
       rw [h0] at ht
       cases ht)⟩

/-- C9 counterexample: a well-shaped hex string containing an invalid hex
character need not produce NaN channels and can even return exactly the
fallback value: `'z'` is not a hex digit, yet
`parse "#00000z00" = {r:0, g:0, b:0, a:0}` (because `parseInt("0z", 16)`
parses the leading `0` and ignores the rest). -/
theorem hex_invalid_counterexample :
    isHexC 'z' = false ∧
    parse "#00000z00" = ⟨.val 0, .val 0, .val 0, some (.val 0)⟩ ∧
    parse "#00000z00" = fallbackRGBA := by
  refine ⟨by decide, by decide, by decide⟩

/-- C9 amended: a length-4/7/9 string starting with `#` raises no error
and takes the hex branch: its alpha field is present exactly when the
length is 9.  For length-4 strings an invalid hex character in a channel
position does make that channel NaN (a single non-hex character parses to
NaN); for lengths 7 and 9 a two-character capture can instead parse its
valid prefix, so the result may contain ordinary numbers or even equal the
fallback. -/
theorem hex_invalid_amended (s : String)
    (hlen : s.data.length = 4 ∨ s.data.length = 7 ∨ s.data.length = 9)
    (hhash : s.data.head? = some '#') :
    ((parse s).a ≠ none ↔ s.data.length = 9) ∧
    (∀ c1 c2 c3, s.data = ['#', c1, c2, c3] →
      (isHexC c1 = false → (parse s).r = .nan) ∧
      (isHexC c2 = false → (parse s).g = .nan) ∧
      (isHexC c3 = false → (parse s).b = .nan)) := by
  constructor
  · rcases hlen with h | h | h
    · obtain ⟨a, b, c, d, he⟩ := eq_list4 h
      have ha : a = '#' := by rw [he] at hhash; simpa using hhash
      subst ha
      rw [parse, he, stringToRGBA_hex4]
      simp
    · obtain ⟨a, b, c, d, e, f, g, he⟩ := eq_list7 h
      have ha : a = '#' := by rw [he] at hhash; simpa using hhash
      subst ha
      rw [parse, he, stringToRGBA_hex7]
      simp
    · obtain ⟨a, b, c, d, e, f, g, x, y, he⟩ := eq_list9 h
      have ha : a = '#' := by rw [he] at hhash; simpa using hhash
      subst ha
      rw [parse, he, stringToRGBA_hex9]
      simp
  · intro c1 c2 c3 he
    rw [parse, he, stringToRGBA_hex4]
    refine ⟨fun hb => ?_, fun hb => ?_, fun hb => ?_⟩ <;>
      (rw [jsParseIntHex_bad1 hb]; rfl)

theorem hex_invalid_amended_witness :
    ((("#z00" : String).data.length = 4 ∧ ("#z00" : String).data.head? = some '#' ∧
        ("#z00" : String).data = ['#', 'z', '0', '0'] ∧ isHexC 'z' = false) ∧
      ((parse "#z00").a ≠ none ↔ ("#z00" : String).data.length = 9)) ∧
    (parse "#z00").r = .nan :=
  ⟨⟨⟨by decide, by decide, by decide, by decide⟩,
    (hex_invalid_amended "#z00" (Or.inl (by decide)) (by decide)).1⟩,
   ((hex_invalid_amended "#z00" (Or.inl (by decide)) (by decide)).2 'z' '0' '0'
     (by decide)).1 (by decide)⟩

/-- C3 counterexample: the rgba pattern does NOT have the same whitespace
tolerance as rgb at the closing parenthesis.  `parse "rgba(1, 2, 3, 0.5)"`
succeeds, but inserting one space before the `)` makes it fall back to
transparent black, while the analogous `parse "rgb(1, 2, 3 )"` still
succeeds. -/
theorem rgba_whitespace_counterexample :
    parse "rgba(1, 2, 3, 0.5)" =
      ⟨.val (1/255), .val (2/255), .val (3/255), some (.val (1/2))⟩ ∧
    parse "rgba(1, 2, 3, 0.5 )" = fallbackRGBA ∧
    parse "rgb(1, 2, 3 )" = ⟨.val (1/255), .val (2/255), .val (3/255), none⟩ := by
  refine ⟨by decide, by decide, by decide⟩

/-- C3 amended: the rgba pattern accepts optional whitespace around each
number and after the opening parenthesis, exactly like rgb, and inserting
or removing whitespace at those positions does not change the result of
`parse`; but no whitespace is tolerated between the alpha capture and the
closing parenthesis (and the match is not anchored at the end of the
string). -/
theorem rgba_whitespace_tolerance_amended
    (w1 w2 w3 w4 w5 w6 w7 w8 d1 d2 d3 A rest : List Char)
    (hw1 : ∀ c ∈ w1, jsIsSpace c = true) (hw2 : ∀ c ∈ w2, jsIsSpace c = true)
    (hw3 : ∀ c ∈ w3, jsIsSpace c = true) (hw4 : ∀ c ∈ w4, jsIsSpace c = true)
    (hw5 : ∀ c ∈ w5, jsIsSpace c = true) (hw6 : ∀ c ∈ w6, jsIsSpace c = true)
    (hw7 : ∀ c ∈ w7, jsIsSpace c = true) (hw8 : ∀ c ∈ w8, jsIsSpace c = true)
    (h1 : d1 ≠ []) (hd1 : ∀ c ∈ d1, isDigitC c = true)
    (h2 : d2 ≠ []) (hd2 : ∀ c ∈ d2, isDigitC c = true)
    (h3 : d3 ≠ []) (hd3 : ∀ c ∈ d3, isDigitC c = true)
    (hA : alphaShape A) :
    parse ⟨'r' :: 'g' :: 'b' :: 'a' :: (w1 ++ '(' :: (w2 ++ d1 ++ (w3 ++ ',' ::
      (w4 ++ d2 ++ (w5 ++ ',' :: (w6 ++ d3 ++ (w7 ++ ',' ::
        (w8 ++ A ++ ')' :: rest))))))))⟩ =
    parse ⟨'r' :: 'g' :: 'b' :: 'a' :: '(' :: (d1 ++ ',' :: (d2 ++ ',' ::
      (d3 ++ ',' :: (A ++ [')']))))⟩ := by
  have hm1 := matchRgba_spec w1 w2 w3 w4 w5 w6 w7 w8 d1 d2 d3 A rest
    hw1 hw2 hw3 hw4 hw5 hw6 hw7 hw8 h1 hd1 h2 hd2 h3 hd3 hA
  have hm2 := matchRgba_spec [] [] [] [] [] [] [] [] d1 d2 d3 A []
    spaces_nil spaces_nil spaces_nil spaces_nil spaces_nil spaces_nil spaces_nil
    spaces_nil h1 hd1 h2 hd2 h3 hd3 hA
  simp only [List.nil_append] at hm2
  show stringToRGBA _ = stringToRGBA _
  rw [stringToRGBA_rgba hm1, stringToRGBA_rgba hm2]

theorem rgba_whitespace_tolerance_amended_witness :
    parse "rgba( 1,2,3,0.5)" = parse "rgba(1,2,3,0.5)" := by
  have h := rgba_whitespace_tolerance_amended [] [' '] [] [] [] [] [] []
    ['1'] ['2'] ['3'] ['0', '.', '5'] []
    spaces_nil spaces_one spaces_nil spaces_nil spaces_nil spaces_nil spaces_nil
    spaces_nil
    (by decide) (by decide) (by decide) (by decide) (by decide) (by decide)
    (Or.inr ⟨['0'], ['5'], rfl, by decide, by decide, by decide, by decide⟩)
  exact h

/-- C6: `serialize` produces `rgb(R, G, B)` when the alpha field is absent
and `rgba(R, G, B, A)` when present, where each channel is rendered as the
decimal integer `round(channel * 255)` and the alpha as its value with
exactly three digits after the decimal point; in particular
`serialize {r:0,g:0,b:0} = "rgb(0, 0, 0)"` and
`serialize {r:1,g:1,b:1,a:0.5} = "rgba(255, 255, 255, 0.500)"`. -/
theorem serialize_format :
    (∀ r g b : ℚ, 0 ≤ r → 0 ≤ g → 0 ≤ b →
      serialize ⟨.val r, .val g, .val b, none⟩ =
        ⟨"rgb(".data ++ natToDigits (⌊r * 255 + 1/2⌋).toNat ++ ", ".data ++
          natToDigits (⌊g * 255 + 1/2⌋).toNat ++ ", ".data ++
          natToDigits (⌊b * 255 + 1/2⌋).toNat ++ ")".data⟩) ∧
    (∀ r g b a : ℚ, 0 ≤ r → 0 ≤ g → 0 ≤ b → 0 ≤ a →
      serialize ⟨.val r, .val g, .val b, some (.val a)⟩ =
        ⟨"rgba(".data ++ natToDigits (⌊r * 255 + 1/2⌋).toNat ++ ", ".data ++
          natToDigits (⌊g * 255 + 1/2⌋).toNat ++ ", ".data ++
          natToDigits (⌊b * 255 + 1/2⌋).toNat ++ ", ".data ++
          (natToDigits ((⌊a * 1000 + 1/2⌋).toNat / 1000) ++
            '.' :: pad3 ((⌊a * 1000 + 1/2⌋).toNat % 1000)) ++ ")".data⟩) ∧
    serialize ⟨.val 0, .val 0, .val 0, none⟩ = "rgb(0, 0, 0)" ∧
    serialize ⟨.val 1, .val 1, .val 1, some (.val (1/2))⟩ =
      "rgba(255, 255, 255, 0.500)" := by
  refine ⟨?_, ?_, by decide, by decide⟩
  · intro r g b hr hg hb
    rw [serialize]
    simp only [serializeRGBA, roundStr_nonneg hr, roundStr_nonneg hg,
      roundStr_nonneg hb]
  · intro r g b a hr hg hb ha
    rw [serialize]
    simp only [serializeRGBA, roundStr_nonneg hr, roundStr_nonneg hg,
      roundStr_nonneg hb, toFixed3_nonneg ha]

theorem serialize_format_witness :
    ((0 : ℚ) ≤ 1 ∧ (0 : ℚ) ≤ (1/2 : ℚ)) ∧
    serialize ⟨.val 1, .val 1, .val 1, some (.val (1/2))⟩ =
      ⟨"rgba(".data ++ natToDigits (⌊(1 : ℚ) * 255 + 1/2⌋).toNat ++ ", ".data ++
        natToDigits (⌊(1 : ℚ) * 255 + 1/2⌋).toNat ++ ", ".data ++
        natToDigits (⌊(1 : ℚ) * 255 + 1/2⌋).toNat ++ ", ".data ++
        (natToDigits ((⌊(1/2 : ℚ) * 1000 + 1/2⌋).toNat / 1000) ++
          '.' :: pad3 ((⌊(1/2 : ℚ) * 1000 + 1/2⌋).toNat % 1000)) ++ ")".data⟩ :=
  ⟨⟨by norm_num, by norm_num⟩,
   serialize_format.2.1 1 1 1 (1/2) (by norm_num) (by norm_num) (by norm_num)
     (by norm_num)⟩

/-- C7: for every functional-notation input (one the rgb or rgba pattern
matches), re-parsing the serialization of the parse yields the same color
within a tolerance of 1/255 on every channel — the rgb/rgba channels
round-trip exactly, and the alpha is reproduced to three decimal places. -/
theorem parse_serialize_roundtrip (s : String)
    (h : (matchRgb s.data).isSome ∨ (matchRgba s.data).isSome) :
    RGBA.close (parse (serialize (parse s))) (parse s) := by
  show RGBA.close (stringToRGBA (serializeRGBA (stringToRGBA s.data)))
    (stringToRGBA s.data)
  rcases h with h | h
  · obtain ⟨t, ht⟩ := Option.isSome_iff_exists.mp h
    rw [roundtrip_rgb ht, stringToRGBA_rgb ht]
    exact ⟨chanClose_refl _, chanClose_refl _, chanClose_refl _, trivial⟩
  · obtain ⟨t, ht⟩ := Option.isSome_iff_exists.mp h
    obtain ⟨-, ⟨q, hq0, hfloat⟩, -⟩ := matchRgba_inv ht
    rw [roundtrip_rgba_parse ht hq0 hfloat, stringToRGBA_rgba ht, hfloat]
    refine ⟨chanClose_refl _, chanClose_refl _, chanClose_refl _, ?_⟩
    show chanClose (.val (((⌊q * 1000 + 1/2⌋).toNat : ℚ) / 1000)) (.val q)
    refine ⟨_, _, rfl, rfl, ?_⟩
    have h0 : (0 : ℤ) ≤ ⌊q * 1000 + 1/2⌋ := Int.floor_nonneg.mpr (by positivity)
    have hcast : (((⌊q * 1000 + 1/2⌋).toNat : ℕ) : ℚ) =
        ((⌊q * 1000 + 1/2⌋ : ℤ) : ℚ) := by
      exact_mod_cast congrArg (fun z : ℤ => (z : ℚ)) (Int.toNat_of_nonneg h0)
    have hle : ((⌊q * 1000 + 1/2⌋ : ℤ) : ℚ) ≤ q * 1000 + 1/2 := Int.floor_le _
    have hgt : q * 1000 + 1/2 < ((⌊q * 1000 + 1/2⌋ : ℤ) : ℚ) + 1 :=
      Int.lt_floor_add_one _
    rw [hcast, abs_le]
    constructor <;> linarith

theorem parse_serialize_roundtrip_witness :
    ((matchRgb ("rgba(1,2,3,0.25)" : String).data).isSome ∨
      (matchRgba ("rgba(1,2,3,0.25)" : String).data).isSome) ∧
    RGBA.close (parse (serialize (parse "rgba(1,2,3,0.25)")))
      (parse "rgba(1,2,3,0.25)") :=
  ⟨Or.inr (by decide),
   parse_serialize_roundtrip "rgba(1,2,3,0.25)" (Or.inr (by decide))⟩

end PaletteKnife
